import Mathlib

/-
Shallow embedding of the pomotui pomodoro timer (src/main.rs).

The timer core is the `App` struct with its operations `start`, `update`
(the per-tick advance) and the read-only projections `get_state_text`,
`get_ratio` (modelled here as `get_ratio_q`) and `get_color`.

Modelling conventions:
- `u128` clock readings are `Nat`; `i64` millisecond counts are `Int`;
  `u32` cycle counts are `Nat`.
- `get_sys_time()` is replaced by an explicit `now` parameter on the
  operations that call it (`App.new`, `App.start`, `App.update`).
- Operations that can panic are `Option`-valued, `none` marking the panic:
  the `unreachable!()` arms of `update`, the debug-mode overflow panic of
  the `u128` subtraction `time - self.last_update_time` when the clock goes
  backwards, the debug-mode underflow panic of the `u32` subtractions
  `i - 1` (in `update`) and `work_cycles - cycle + 1` (in `get_state_text`),
  and `cycle.unwrap()` on `None` in `get_state_text`.
- The `as i64` cast applied to the `u128` delta is modelled exactly by
  `as_i64` (two's-complement interpretation of the low 64 bits).
- `f64` arithmetic in `get_ratio`/`get_color` is modelled as exact rational
  arithmetic; the `f64 as u8` cast saturates to `[0, 255]` and truncates
  toward zero, modelled by `f64_as_u8`.
-/

namespace Pomotui

/-- `i64::MAX` as a natural number. -/
def i64MaxNat : Nat := 2 ^ 63 - 1

/-- The `as i64` cast applied to a `u128` value: keep the low 64 bits and
interpret them in two's complement. -/
def as_i64 (n : Nat) : Int :=
  let low : Nat := n % 2 ^ 64
  if low < 2 ^ 63 then (low : Int) else (low : Int) - 2 ^ 64

/-- Command-line arguments (struct `Args`): durations in minutes. -/
structure Args where
  work_time : Int
  short_wait_time : Int
  long_wait_time : Int
  cycles : Nat
  dark_mode : Bool
deriving DecidableEq

/-- The timer phase (enum `PomoState`). -/
inductive PomoState where
  | Menu : PomoState
  | Work (time_left : Int) : PomoState
  | ShortWait (time_left : Int) : PomoState
  | LongWait (time_left : Int) : PomoState
deriving DecidableEq

/-- `PomoState::get_inner`. -/
def PomoState.get_inner : PomoState → Option Int
  | .Menu => none
  | .Work time_left => some time_left
  | .ShortWait time_left => some time_left
  | .LongWait time_left => some time_left

/-- Struct `Settings`: durations in milliseconds. -/
structure Settings where
  work_time : Int
  short_wait_time : Int
  long_wait_time : Int
  work_cycles : Nat
  dark_mode : Bool
deriving DecidableEq

/-- `Settings::new`: converts the minute arguments to milliseconds. -/
def Settings.new (args : Args) : Settings :=
  { work_time := args.work_time * 60 * 1000
    short_wait_time := args.short_wait_time * 60 * 1000
    long_wait_time := args.long_wait_time * 60 * 1000
    work_cycles := args.cycles
    dark_mode := args.dark_mode }

/-- Struct `App`: the timer session. -/
structure App where
  state : PomoState
  settings : Settings
  cycle : Option Nat
  last_update_time : Nat
  paused : Bool
deriving DecidableEq

/-- `App::new`; `now` stands for the `get_sys_time()` reading. -/
def App.new (args : Args) (now : Nat) : App :=
  { state := .Menu
    settings := Settings.new args
    cycle := none
    last_update_time := now
    paused := false }

/-- `App::start`; `now` stands for the `get_sys_time()` reading. -/
def App.start (a : App) (now : Nat) : App :=
  { a with
    state := .Work a.settings.work_time
    cycle := some a.settings.work_cycles
    last_update_time := now }

/-- The `'p'` key handler in `run_app`: `app.paused = !app.paused`. -/
def App.toggle_pause (a : App) : App :=
  { a with paused := !a.paused }

/-- `App::update`; `now` stands for the `get_sys_time()` reading.
`none` models a panic: the u128 subtraction underflow when `now` is before
`last_update_time`, the two `unreachable!()` arms, and the u32 underflow of
`i - 1` when the cycle counter is already `0`. -/
def App.update (a : App) (now : Nat) : Option App :=
  if now < a.last_update_time then none
  else
    let delta : Int := as_i64 (now - a.last_update_time)
    if a.paused then some { a with last_update_time := now }
    else
      match a.state.get_inner with
      | none => some { a with last_update_time := now }
      | some inner_time =>
        let new_inner_time := inner_time - delta
        if 0 < new_inner_time then
          match a.state with
          | .Menu => none
          | .Work _ =>
              some { a with state := .Work new_inner_time, last_update_time := now }
          | .ShortWait _ =>
              some { a with state := .ShortWait new_inner_time, last_update_time := now }
          | .LongWait _ =>
              some { a with state := .LongWait new_inner_time, last_update_time := now }
        else
          match a.state, a.cycle with
          | .Work _, some 1 =>
              some { a with state := .LongWait a.settings.long_wait_time,
                            last_update_time := now }
          | .Work _, some _ =>
              some { a with state := .ShortWait a.settings.short_wait_time,
                            last_update_time := now }
          | .ShortWait _, some i =>
              if i = 0 then none
              else
                some { a with state := .Work a.settings.work_time,
                              cycle := some (i - 1),
                              last_update_time := now }
          | .LongWait _, _ =>
              some { a with state := .Work a.settings.work_time,
                            cycle := some a.settings.work_cycles,
                            last_update_time := now }
          | _, _ => none

/-- The `{:02}` format specifier on a nonnegative integer. -/
def fmt02 (n : Nat) : String :=
  if n < 10 then "0" ++ toString n else toString n

/-- `convert_millis_to_time`. -/
def convert_millis_to_time (millis : Nat) : String :=
  let seconds := millis / 1000
  let minutes := seconds / 60
  fmt02 minutes ++ ":" ++ fmt02 (seconds % 60)

/-- `App::get_state_text`. `none` models a panic: `cycle.unwrap()` on `None`
or u32 underflow of `work_cycles - cycle + 1`. The `time_left as u128` cast
is modelled by reduction modulo `2 ^ 128`. -/
def App.get_state_text (a : App) : Option String :=
  if a.paused then some "PAUSED"
  else
    match a.state, a.cycle with
    | .Menu, _ => some "Press 's' to start, 'q' to quit, 'p' to pause"
    | .Work time_left, some c =>
        if c ≤ a.settings.work_cycles then
          some ("Work: " ++ convert_millis_to_time ((time_left % 2 ^ 128).toNat) ++
            " - Cycle " ++ toString (a.settings.work_cycles - c + 1) ++ "/" ++
            toString a.settings.work_cycles)
        else none
    | .ShortWait time_left, some c =>
        if c ≤ a.settings.work_cycles then
          some ("Short break: " ++ convert_millis_to_time ((time_left % 2 ^ 128).toNat) ++
            " - Cycle " ++ toString (a.settings.work_cycles - c + 1) ++ "/" ++
            toString a.settings.work_cycles)
        else none
    | .LongWait time_left, _ =>
        some ("Long break: " ++ convert_millis_to_time ((time_left % 2 ^ 128).toNat))
    | _, none => none

/-- `App::get_ratio`, with `f64` division modelled as exact rational
division. -/
def App.get_ratio_q (a : App) : ℚ :=
  if a.paused then 1
  else
    match a.state with
    | .Menu => 0
    | .Work time_left => (time_left : ℚ) / (a.settings.work_time : ℚ)
    | .ShortWait time_left => (time_left : ℚ) / (a.settings.short_wait_time : ℚ)
    | .LongWait time_left => (time_left : ℚ) / (a.settings.long_wait_time : ℚ)

/-- The `tui::style::Color` values used by `App::get_color`. -/
inductive Color where
  | Gray : Color
  | LightBlue : Color
  | LightGreen : Color
  | Rgb (r g b : Nat) : Color
deriving DecidableEq

/-- The `f64 as u8` cast: saturate to `[0, 255]`, truncating toward zero. -/
def f64_as_u8 (q : ℚ) : Nat :=
  if q ≤ 0 then 0 else min 255 (⌊q⌋.toNat)

/-- `App::get_color`. -/
def App.get_color (a : App) : Color :=
  let ratio := a.get_ratio_q
  match a.state with
  | .Menu => .Gray
  | .Work _ => .Rgb (f64_as_u8 (ratio * 255)) (255 - f64_as_u8 (ratio * 255)) 0
  | .ShortWait _ => .LightBlue
  | .LongWait _ => .LightGreen

/-- Folding `App::update` over a list of successive clock readings. -/
def advanceMany (a : App) (ns : List Nat) : Option App :=
  ns.foldl (fun o n => o.bind (fun b => b.update n)) (some a)

/-- The configured total duration of a phase, as used in the denominators of
`App::get_ratio`. -/
def Settings.phase_total (s : Settings) : PomoState → Int
  | .Menu => 0
  | .Work _ => s.work_time
  | .ShortWait _ => s.short_wait_time
  | .LongWait _ => s.long_wait_time

/-- Reachable session states: the initial `Menu` state (any initial clock
reading), closed under `start`, the pause toggle, and `update` with
nondecreasing clock readings. No bound is placed on the clock increments. -/
inductive ReachableAny (s : Settings) : App → Prop where
  | init (now : Nat) :
      ReachableAny s
        { state := .Menu, settings := s, cycle := none,
          last_update_time := now, paused := false }
  | start (a : App) (now : Nat) : ReachableAny s a → ReachableAny s (a.start now)
  | toggle (a : App) : ReachableAny s a → ReachableAny s a.toggle_pause
  | update (a a' : App) (now : Nat) : ReachableAny s a →
      a.last_update_time ≤ now → a.update now = some a' → ReachableAny s a'

/-- Reachable session states where moreover each `update` call's elapsed
time `now - last_update_time` fits in an `i64`, so that the `as i64` cast
of the delta is exact. -/
inductive Reachable (s : Settings) : App → Prop where
  | init (now : Nat) :
      Reachable s
        { state := .Menu, settings := s, cycle := none,
          last_update_time := now, paused := false }
  | start (a : App) (now : Nat) : Reachable s a → Reachable s (a.start now)
  | toggle (a : App) : Reachable s a → Reachable s a.toggle_pause
  | update (a a' : App) (now : Nat) : Reachable s a →
      a.last_update_time ≤ now → now - a.last_update_time ≤ i64MaxNat →
      a.update now = some a' → Reachable s a'

/-- The strong state invariant used to analyse reachable states: the
settings are the configured ones and every non-`Menu` phase carries a cycle
counter in range and a positive remaining time bounded by the phase's
configured duration (with the sharper bound `2 ≤ k` during a short break). -/
def StrongInv (s : Settings) (a : App) : Prop :=
  a.settings = s ∧
  (∀ t, a.state = .Work t →
    ∃ k, a.cycle = some k ∧ 1 ≤ k ∧ k ≤ s.work_cycles ∧ 0 < t ∧ t ≤ s.work_time) ∧
  (∀ t, a.state = .ShortWait t →
    ∃ k, a.cycle = some k ∧ 2 ≤ k ∧ k ≤ s.work_cycles ∧ 0 < t ∧ t ≤ s.short_wait_time) ∧
  (∀ t, a.state = .LongWait t →
    ∃ k, a.cycle = some k ∧ 1 ≤ k ∧ k ≤ s.work_cycles ∧ 0 < t ∧ t ≤ s.long_wait_time)

/-! ### Concrete sample sessions used in witnesses and counterexamples -/

def sampleSettings : Settings := ⟨2, 3, 5, 3, false⟩

def sampleMenu : App := ⟨.Menu, sampleSettings, none, 0, false⟩

def sampleMenuOne : App := ⟨.Menu, ⟨2, 3, 5, 1, false⟩, none, 0, false⟩

def samplePaused : App := ⟨.Work 100, ⟨60000, 30000, 90000, 4, false⟩, some 4, 10, true⟩

def sampleFullWork : App := ⟨.Work 2, sampleSettings, some 3, 0, false⟩

def sampleNearZero : App := ⟨.Work 1, ⟨300, 3, 5, 3, false⟩, some 3, 0, false⟩

def sampleShortBreak : App := ⟨.ShortWait 3, sampleSettings, some 3, 0, false⟩

def bigSettings : Settings := ⟨60000, 60000, 60000, 3, false⟩

def bigMenu : App := ⟨.Menu, bigSettings, none, 0, false⟩

def c6CexApp : App := ⟨.Work 50000, ⟨50000, 50000, 50000, 2, false⟩, some 2, 0, false⟩

/-! ### Helper lemmas: case-by-case characterization of `App.update` -/

theorem as_i64_eq_ofNat (n : Nat) (h : n ≤ i64MaxNat) : as_i64 n = (n : Int) := by
  have hn : n < 2 ^ 64 := by
    simp only [i64MaxNat] at h
    have : (2 : Nat) ^ 63 - 1 < 2 ^ 64 := by norm_num
    omega
  have hn' : n < 2 ^ 63 := by
    simp only [i64MaxNat] at h
    have : (0 : Nat) < 2 ^ 63 := by norm_num
    omega
  simp only [as_i64]
  rw [Nat.mod_eq_of_lt hn, if_pos hn']

theorem as_i64_toNat (x : Int) (h0 : 0 ≤ x) (hM : x ≤ (i64MaxNat : Int)) :
    as_i64 x.toNat = x := by
  rw [as_i64_eq_ofNat]
  · omega
  · omega

theorem update_underflow (a : App) (now : Nat) (h : now < a.last_update_time) :
    a.update now = none := by
  simp [App.update, h]

theorem update_paused_eq (a : App) (now : Nat) (hp : a.paused = true)
    (h : a.last_update_time ≤ now) :
    a.update now = some { a with last_update_time := now } := by
  simp [App.update, hp, Nat.not_lt.mpr h]

theorem update_menu_eq (a : App) (now : Nat) (hst : a.state = .Menu)
    (hp : a.paused = false) (h : a.last_update_time ≤ now) :
    a.update now = some { a with last_update_time := now } := by
  simp [App.update, hp, Nat.not_lt.mpr h, hst, PomoState.get_inner]

theorem update_work_steady (a : App) (now : Nat) (t : Int)
    (hst : a.state = .Work t) (hp : a.paused = false)
    (h : a.last_update_time ≤ now)
    (hpos : 0 < t - as_i64 (now - a.last_update_time)) :
    a.update now = some { a with
      state := .Work (t - as_i64 (now - a.last_update_time)),
      last_update_time := now } := by
  simp [App.update, hp, Nat.not_lt.mpr h, hst, PomoState.get_inner, hpos]

theorem update_short_steady (a : App) (now : Nat) (t : Int)
    (hst : a.state = .ShortWait t) (hp : a.paused = false)
    (h : a.last_update_time ≤ now)
    (hpos : 0 < t - as_i64 (now - a.last_update_time)) :
    a.update now = some { a with
      state := .ShortWait (t - as_i64 (now - a.last_update_time)),
      last_update_time := now } := by
  simp [App.update, hp, Nat.not_lt.mpr h, hst, PomoState.get_inner, hpos]

theorem update_long_steady (a : App) (now : Nat) (t : Int)
    (hst : a.state = .LongWait t) (hp : a.paused = false)
    (h : a.last_update_time ≤ now)
    (hpos : 0 < t - as_i64 (now - a.last_update_time)) :
    a.update now = some { a with
      state := .LongWait (t - as_i64 (now - a.last_update_time)),
      last_update_time := now } := by
  simp [App.update, hp, Nat.not_lt.mpr h, hst, PomoState.get_inner, hpos]

theorem update_work_exhaust_long (a : App) (now : Nat) (t : Int)
    (hst : a.state = .Work t) (hc : a.cycle = some 1) (hp : a.paused = false)
    (h : a.last_update_time ≤ now)
    (hneg : t - as_i64 (now - a.last_update_time) ≤ 0) :
    a.update now = some { a with
      state := .LongWait a.settings.long_wait_time,
      last_update_time := now } := by
  simp [App.update, hp, Nat.not_lt.mpr h, hst, hc, PomoState.get_inner,
    Int.not_lt.mpr hneg]

theorem update_work_exhaust_short (a : App) (now : Nat) (t : Int) (k : Nat)
    (hst : a.state = .Work t) (hc : a.cycle = some k) (hk : k ≠ 1)
    (hp : a.paused = false) (h : a.last_update_time ≤ now)
    (hneg : t - as_i64 (now - a.last_update_time) ≤ 0) :
    a.update now = some { a with
      state := .ShortWait a.settings.short_wait_time,
      last_update_time := now } := by
  obtain _ | _ | k := k
  · simp [App.update, hp, Nat.not_lt.mpr h, hst, hc, PomoState.get_inner,
      Int.not_lt.mpr hneg]
  · exact absurd rfl hk
  · simp [App.update, hp, Nat.not_lt.mpr h, hst, hc, PomoState.get_inner,
      Int.not_lt.mpr hneg]

theorem update_short_exhaust (a : App) (now : Nat) (t : Int) (k : Nat)
    (hst : a.state = .ShortWait t) (hc : a.cycle = some k) (hk : k ≠ 0)
    (hp : a.paused = false) (h : a.last_update_time ≤ now)
    (hneg : t - as_i64 (now - a.last_update_time) ≤ 0) :
    a.update now = some { a with
      state := .Work a.settings.work_time,
      cycle := some (k - 1),
      last_update_time := now } := by
  simp [App.update, hp, Nat.not_lt.mpr h, hst, hc, PomoState.get_inner,
    Int.not_lt.mpr hneg, hk]

theorem update_long_exhaust (a : App) (now : Nat) (t : Int)
    (hst : a.state = .LongWait t) (hp : a.paused = false)
    (h : a.last_update_time ≤ now)
    (hneg : t - as_i64 (now - a.last_update_time) ≤ 0) :
    a.update now = some { a with
      state := .Work a.settings.work_time,
      cycle := some a.settings.work_cycles,
      last_update_time := now } := by
  simp [App.update, hp, Nat.not_lt.mpr h, hst, PomoState.get_inner,
    Int.not_lt.mpr hneg]

theorem advanceMany_none (ns : List Nat) :
    ns.foldl (fun o n => o.bind (fun b => b.update n)) (none : Option App) = none := by
  induction ns with
  | nil => rfl
  | cons n ns ih => simpa using ih

theorem advanceMany_cons (a : App) (n : Nat) (ns : List Nat) :
    advanceMany a (n :: ns) = (a.update n).bind (fun b => advanceMany b ns) := by
  cases hu : a.update n with
  | none => simp [advanceMany, hu, advanceMany_none]
  | some b => simp [advanceMany, hu]

theorem paused_advanceMany (a : App) (hp : a.paused = true) (ns : List Nat)
    (hch : List.Chain' (· ≤ ·) (a.last_update_time :: ns)) :
    advanceMany a ns =
      some { a with last_update_time := ns.foldl (fun _ n => n) a.last_update_time } := by
  induction ns generalizing a with
  | nil => simp [advanceMany]
  | cons n ns ih =>
    have h1 : a.last_update_time ≤ n := (List.chain'_cons.mp hch).1
    have h2 : List.Chain' (· ≤ ·) (n :: ns) := (List.chain'_cons.mp hch).2
    rw [advanceMany_cons, update_paused_eq a n hp h1]
    simpa using ih { a with last_update_time := n } hp h2

/-! ### Claim theorems -/

/-- C7: `start()` from any phase sets the phase to `Working` with the full
configured work duration, sets the cycle counter to `cycles_per_set`,
resets the last-observed clock reading to the current one, and touches
nothing else (it is total, hence never fails). -/
theorem C7_start_unconditional_reset (a : App) (now : Nat) :
    (a.start now).state = .Work a.settings.work_time ∧
    (a.start now).cycle = some a.settings.work_cycles ∧
    (a.start now).last_update_time = now ∧
    (a.start now).paused = a.paused ∧
    (a.start now).settings = a.settings := by
  refine ⟨rfl, rfl, rfl, rfl, rfl⟩

/-- C5: while paused, `advance(now_ms)` with a nondecreasing clock reading
records the new clock reading and changes nothing else — the phase with its
remaining time, the cycle counter, the settings, and the pause flag are
untouched — even over arbitrarily many chained calls. -/
theorem C5_paused_advance_only_updates_clock (a : App) (hp : a.paused = true) :
    (∀ now, a.last_update_time ≤ now →
      a.update now = some { a with last_update_time := now }) ∧
    (∀ ns : List Nat, List.Chain' (· ≤ ·) (a.last_update_time :: ns) →
      advanceMany a ns =
        some { a with last_update_time := ns.foldl (fun _ n => n) a.last_update_time }) := by
  exact ⟨fun now h => update_paused_eq a now hp h,
    fun ns hch => paused_advanceMany a hp ns hch⟩

/-- C5 witness: a concrete paused mid-work session advanced twice with huge
clock jumps keeps its phase, remaining time and cycle counter. -/
theorem C5_paused_advance_only_updates_clock_witness :
    advanceMany samplePaused [10 ^ 9, 10 ^ 12] =
      some { samplePaused with last_update_time := 10 ^ 12 } := by
  have h := (C5_paused_advance_only_updates_clock samplePaused rfl).2
    [10 ^ 9, 10 ^ 12] (by norm_num [samplePaused, List.chain'_cons])
  simpa using h

/-- C9: `start()` does not touch the pause flag: a paused session stays
paused after a restart, the display text still shows the paused indicator,
and subsequent `advance` calls keep leaving the remaining time unchanged. -/
theorem C9_start_keeps_paused (a : App) (now : Nat) (hp : a.paused = true) :
    (a.start now).paused = true ∧
    (a.start now).get_state_text = some "PAUSED" ∧
    (∀ m, now ≤ m →
      (a.start now).update m = some { a.start now with last_update_time := m }) := by
  refine ⟨hp, ?_, ?_⟩
  · simp [App.get_state_text, App.start, hp]
  · intro m hm
    exact update_paused_eq (a.start now) m hp hm

/-- C9 witness: restarting a concrete paused session leaves it paused, with
the paused display text, and a later advance only moves the clock. -/
theorem C9_start_keeps_paused_witness :
    (samplePaused.start 20).paused = true ∧
    (samplePaused.start 20).get_state_text = some "PAUSED" ∧
    (samplePaused.start 20).update (10 ^ 6) =
      some { samplePaused.start 20 with last_update_time := 10 ^ 6 } := by
  obtain ⟨h1, h2, h3⟩ := C9_start_keeps_paused samplePaused 20 rfl
  exact ⟨h1, h2, h3 (10 ^ 6) (by norm_num)⟩

/-- C4: for every positive work duration (an `i64`, hence at most
`i64::MAX`), advancing to one millisecond before exhaustion immediately
after `start()` leaves the phase `Working` with exactly 1 ms remaining;
the cycle counter and pause flag are those set up by `start` (unchanged by
the advance). -/
theorem C4_one_ms_before_exhaustion (a : App) (n0 : Nat)
    (hp : a.paused = false)
    (hw : 0 < a.settings.work_time)
    (hM : a.settings.work_time ≤ (i64MaxNat : Int)) :
    (a.start n0).update (n0 + (a.settings.work_time - 1).toNat) =
      some { a.start n0 with
        state := .Work 1,
        last_update_time := n0 + (a.settings.work_time - 1).toNat } := by
  set m := (a.settings.work_time - 1).toNat with hm
  have hcast : as_i64 ((n0 + m) - (a.start n0).last_update_time) =
      a.settings.work_time - 1 := by
    have hd : (n0 + m) - (a.start n0).last_update_time = m := by
      show (n0 + m) - n0 = m
      omega
    rw [hd, hm]
    exact as_i64_toNat _ (by omega) (by omega)
  have h := update_work_steady (a.start n0) (n0 + m) a.settings.work_time rfl hp
    (by show n0 ≤ n0 + m; omega) (by rw [hcast]; omega)
  rw [hcast] at h
  have hone : a.settings.work_time - (a.settings.work_time - 1) = 1 := by ring
  rw [hone] at h
  exact h

/-- C4 witness: with a 2 ms work duration, advancing to 1 ms before
exhaustion right after `start()` leaves `Working` with 1 ms remaining. -/
theorem C4_one_ms_before_exhaustion_witness :
    (sampleMenu.start 0).update (0 + (sampleMenu.settings.work_time - 1).toNat) =
      some { sampleMenu.start 0 with
        state := .Work 1,
        last_update_time := 0 + (sampleMenu.settings.work_time - 1).toNat } :=
  C4_one_ms_before_exhaustion sampleMenu 0 rfl (by decide) (by decide)

/-- C2: advancing to the exact exhaustion instant immediately after
`start()` leaves the `Working` phase: to `LongBreak` at the full long-break
duration when `cycles_per_set = 1`, and to `ShortBreak` at the full
short-break duration when `cycles_per_set > 1`; the cycle counter keeps the
value `cycles_per_set` set by `start` in both cases. -/
theorem C2_exhaustion_after_start (a : App) (n0 : Nat)
    (hp : a.paused = false)
    (hw : 0 < a.settings.work_time)
    (hM : a.settings.work_time ≤ (i64MaxNat : Int))
    (hN : 1 ≤ a.settings.work_cycles) :
    (a.settings.work_cycles = 1 →
      (a.start n0).update (n0 + a.settings.work_time.toNat) =
        some { a.start n0 with
          state := .LongWait a.settings.long_wait_time,
          last_update_time := n0 + a.settings.work_time.toNat }) ∧
    (1 < a.settings.work_cycles →
      (a.start n0).update (n0 + a.settings.work_time.toNat) =
        some { a.start n0 with
          state := .ShortWait a.settings.short_wait_time,
          last_update_time := n0 + a.settings.work_time.toNat }) := by
  have hcast : as_i64 ((n0 + a.settings.work_time.toNat) -
      (a.start n0).last_update_time) = a.settings.work_time := by
    have hd : (n0 + a.settings.work_time.toNat) - (a.start n0).last_update_time =
        a.settings.work_time.toNat := by
      show (n0 + a.settings.work_time.toNat) - n0 = a.settings.work_time.toNat
      omega
    rw [hd]
    exact as_i64_toNat a.settings.work_time (le_of_lt hw) hM
  constructor
  · intro h1
    have hc : (a.start n0).cycle = some 1 := by
      show some a.settings.work_cycles = some 1
      rw [h1]
    exact update_work_exhaust_long (a.start n0) _ a.settings.work_time rfl hc hp
      (by show n0 ≤ n0 + a.settings.work_time.toNat; omega)
      (by rw [hcast]; omega)
  · intro h1
    exact update_work_exhaust_short (a.start n0) _ a.settings.work_time
      a.settings.work_cycles rfl rfl (by omega) hp
      (by show n0 ≤ n0 + a.settings.work_time.toNat; omega)
      (by rw [hcast]; omega)

/-- C2 witness: with 3 cycles the first exhaustion goes to a short break at
its full duration; with 1 cycle it goes straight to the long break. -/
theorem C2_exhaustion_after_start_witness :
    (sampleMenu.start 0).update (0 + sampleMenu.settings.work_time.toNat) =
      some { sampleMenu.start 0 with
        state := .ShortWait sampleMenu.settings.short_wait_time,
        last_update_time := 0 + sampleMenu.settings.work_time.toNat } ∧
    (sampleMenuOne.start 0).update (0 + sampleMenuOne.settings.work_time.toNat) =
      some { sampleMenuOne.start 0 with
        state := .LongWait sampleMenuOne.settings.long_wait_time,
        last_update_time := 0 + sampleMenuOne.settings.work_time.toNat } :=
  ⟨(C2_exhaustion_after_start sampleMenu 0 rfl (by decide) (by decide)
      (by decide)).2 (by decide),
   (C2_exhaustion_after_start sampleMenuOne 0 rfl (by decide) (by decide)
      (by decide)).1 (by decide)⟩

theorem f64_as_u8_of_lt_one (q : ℚ) (h0 : 0 ≤ q) (h1 : q < 1) : f64_as_u8 q = 0 := by
  unfold f64_as_u8
  rcases le_or_lt q 0 with h | h
  · rw [if_pos h]
  · rw [if_neg (not_le.mpr h)]
    have hfl : ⌊q⌋ = 0 := Int.floor_eq_zero_iff.mpr ⟨h0, h1⟩
    simp [hfl]

/-- C6 (amended): when the elapsed time since the last observation covers
the whole remaining time of the current non-`Menu` phase — by any overshoot
amount, provided the elapsed time fits in an `i64` — `update` moves to the
successor phase at that phase's full configured duration, independently of
the overshoot. -/
theorem C6_overshoot_discarded (a : App) (now : Nat) (k : Nat) (t : Int)
    (hp : a.paused = false) (hc : a.cycle = some k) (hk : 1 ≤ k)
    (ht : a.state.get_inner = some t)
    (hnl : a.last_update_time ≤ now)
    (hd : now - a.last_update_time ≤ i64MaxNat)
    (hov : t ≤ ((now - a.last_update_time : Nat) : Int)) :
    (∀ u, a.state = .Work u →
      (k = 1 → a.update now = some { a with
        state := .LongWait a.settings.long_wait_time, last_update_time := now }) ∧
      (k ≠ 1 → a.update now = some { a with
        state := .ShortWait a.settings.short_wait_time, last_update_time := now })) ∧
    (∀ u, a.state = .ShortWait u →
      a.update now = some { a with
        state := .Work a.settings.work_time,
        cycle := some (k - 1),
        last_update_time := now }) ∧
    (∀ u, a.state = .LongWait u →
      a.update now = some { a with
        state := .Work a.settings.work_time,
        cycle := some a.settings.work_cycles,
        last_update_time := now }) := by
  have hcast : as_i64 (now - a.last_update_time) =
      ((now - a.last_update_time : Nat) : Int) := as_i64_eq_ofNat _ hd
  refine ⟨?_, ?_, ?_⟩
  · intro u hst
    have hut : u = t := by
      rw [hst] at ht
      simpa [PomoState.get_inner] using ht
    subst hut
    constructor
    · intro h1
      rw [h1] at hc
      exact update_work_exhaust_long a now u hst hc hp hnl (by rw [hcast]; omega)
    · intro h1
      exact update_work_exhaust_short a now u k hst hc h1 hp hnl
        (by rw [hcast]; omega)
  · intro u hst
    have hut : u = t := by
      rw [hst] at ht
      simpa [PomoState.get_inner] using ht
    subst hut
    exact update_short_exhaust a now u k hst hc (by omega) hp hnl
      (by rw [hcast]; omega)
  · intro u hst
    have hut : u = t := by
      rw [hst] at ht
      simpa [PomoState.get_inner] using ht
    subst hut
    exact update_long_exhaust a now u hst hp hnl (by rw [hcast]; omega)

/-- C6 witness: a short break with 3 ms remaining, overshot by a large
margin (elapsed 1000 ms), transitions to `Working` at the full work
duration with the cycle counter decremented. -/
theorem C6_overshoot_discarded_witness :
    sampleShortBreak.update 1000 =
      some { sampleShortBreak with
        state := .Work sampleShortBreak.settings.work_time,
        cycle := some (3 - 1), last_update_time := 1000 } :=
  (C6_overshoot_discarded sampleShortBreak 1000 3 3 rfl rfl (by decide) rfl
    (by decide) (by decide) (by decide)).2.1 3 rfl

/-- C6 counterexample: with an elapsed time exceeding `i64::MAX` the
overshoot condition `now_ms - last_observed_time_ms >= remaining_ms` holds
(elapsed `2^63 + 50007` against 50000 ms remaining), yet the `as i64` cast
makes the delta negative, so no transition happens at all: the phase stays
`Working` with a remaining time that is not any phase's configured duration
(all durations are 50000 here). -/
theorem C6_overshoot_discarded_cex :
    (50000 : Int) ≤ ((2 ^ 63 + 50007 - c6CexApp.last_update_time : Nat) : Int) ∧
    c6CexApp.update (2 ^ 63 + 50007) =
      some { c6CexApp with
        state := .Work (2 ^ 63 - 7),
        last_update_time := 2 ^ 63 + 50007 } ∧
    ¬ ((2 ^ 63 - 7 : Int) ≤ 50000) := by
  refine ⟨by decide, by decide, by decide⟩

/-- C3 (amended): in the `Working` phase the color interpolates between red
and green as a function of the progress ratio, with complementary red and
green channels — but the direction is the reverse of the claim: the color
is pure red at the full configured work time (ratio 1) and pure green as
the remaining time nears zero. `ShortBreak` and `LongBreak` map to the two
distinct fixed accents and `Idle` (`Menu`) to neutral gray. -/
theorem C3_working_color_interpolation (a : App)
    (hp : a.paused = false)
    (hw : 0 < a.settings.work_time) :
    (∀ t, a.state = .Work t →
      a.get_color = .Rgb (f64_as_u8 (a.get_ratio_q * 255))
        (255 - f64_as_u8 (a.get_ratio_q * 255)) 0 ∧
      (t = a.settings.work_time → a.get_color = .Rgb 255 0 0) ∧
      (0 ≤ t → 255 * t < a.settings.work_time → a.get_color = .Rgb 0 255 0)) ∧
    (∀ t, a.state = .ShortWait t → a.get_color = .LightBlue) ∧
    (∀ t, a.state = .LongWait t → a.get_color = .LightGreen) ∧
    (a.state = .Menu → a.get_color = .Gray) ∧
    Color.LightBlue ≠ Color.LightGreen := by
  refine ⟨?_, ?_, ?_, ?_, by decide⟩
  · intro t hst
    have hcol : a.get_color = .Rgb (f64_as_u8 (a.get_ratio_q * 255))
        (255 - f64_as_u8 (a.get_ratio_q * 255)) 0 := by
      simp [App.get_color, hst]
    refine ⟨hcol, ?_, ?_⟩
    · intro htw
      have hq : a.get_ratio_q = 1 := by
        have hwq : ((a.settings.work_time : ℚ)) ≠ 0 := by
          exact_mod_cast ne_of_gt (by exact_mod_cast hw)
        simp [App.get_ratio_q, hp, hst, htw, div_self hwq]
      rw [hcol, hq]
      have h255 : f64_as_u8 ((1 : ℚ) * 255) = 255 := by
        norm_num [f64_as_u8]
      rw [h255]
    · intro ht0 htlt
      have hwq : (0 : ℚ) < (a.settings.work_time : ℚ) := by exact_mod_cast hw
      have hq0 : 0 ≤ a.get_ratio_q * 255 := by
        have : (0 : ℚ) ≤ (t : ℚ) := by exact_mod_cast ht0
        simp only [App.get_ratio_q, hp, if_neg Bool.false_ne_true, hst]
        positivity
      have hq1 : a.get_ratio_q * 255 < 1 := by
        simp only [App.get_ratio_q, hp, if_neg Bool.false_ne_true, hst]
        rw [div_mul_eq_mul_div, div_lt_one hwq]
        have : ((255 * t : Int) : ℚ) < ((a.settings.work_time : Int) : ℚ) := by
          exact_mod_cast htlt
        push_cast at this ⊢
        linarith
      rw [hcol, f64_as_u8_of_lt_one _ hq0 hq1]
  · intro t hst
    simp [App.get_color, hst]
  · intro t hst
    simp [App.get_color, hst]
  · intro hst
    simp [App.get_color, hst]

/-- C3 counterexample: at the full configured work time the progress ratio
is 1, yet the displayed color is pure red `Rgb 255 0 0` (green channel 0),
not green as the claim states. -/
theorem C3_working_color_interpolation_cex :
    sampleFullWork.get_ratio_q = 1 ∧
    sampleFullWork.get_color = Color.Rgb 255 0 0 ∧
    Color.Rgb 255 0 0 ≠ Color.Rgb 0 255 0 := by
  have h1 : sampleFullWork.get_ratio_q = 1 := by
    norm_num [App.get_ratio_q, sampleFullWork, sampleSettings]
  have h255 : f64_as_u8 ((1 : ℚ) * 255) = 255 := by norm_num [f64_as_u8]
  refine ⟨h1, ?_, by decide⟩
  show sampleFullWork.get_color = Color.Rgb 255 0 0
  rw [show sampleFullWork.get_color =
      Color.Rgb (f64_as_u8 (sampleFullWork.get_ratio_q * 255))
        (255 - f64_as_u8 (sampleFullWork.get_ratio_q * 255)) 0 from rfl,
    h1, h255]

/-- C3 witness: red at full remaining time, green near zero remaining time,
and the fixed short-break accent, on concrete sessions. -/
theorem C3_working_color_interpolation_witness :
    sampleFullWork.get_color = Color.Rgb 255 0 0 ∧
    sampleNearZero.get_color = Color.Rgb 0 255 0 ∧
    sampleShortBreak.get_color = Color.LightBlue :=
  ⟨((C3_working_color_interpolation sampleFullWork rfl (by decide)).1 2
      rfl).2.1 (by decide),
   ((C3_working_color_interpolation sampleNearZero rfl (by decide)).1 1
      rfl).2.2 (by decide) (by decide),
   (C3_working_color_interpolation sampleShortBreak rfl (by decide)).2.1 3 rfl⟩

/-- C10: `advance` is well-defined only for nondecreasing clock readings: a
reading before the last observation makes the u128 subtraction underflow (a
panic, modelled as `none`); a delta above `i64::MAX` (but within the next
wrap period) is cast to a negative `i64`; and under the precondition
`last_observed_time_ms <= now_ms <= last_observed_time_ms + i64::MAX` the
delta computation is exact, as exercised on a mid-`Working` countdown. -/
theorem C10_clock_precondition :
    (∀ (a : App) (now : Nat), now < a.last_update_time → a.update now = none) ∧
    (∀ n : Nat, n ≤ i64MaxNat → as_i64 n = (n : Int)) ∧
    (∀ n : Nat, i64MaxNat < n → n < 2 ^ 64 → as_i64 n < 0) ∧
    (∀ (a : App) (now : Nat) (t : Int), a.paused = false → a.state = .Work t →
      a.last_update_time ≤ now → now - a.last_update_time ≤ i64MaxNat →
      0 < t - ((now - a.last_update_time : Nat) : Int) →
      a.update now = some { a with
        state := .Work (t - ((now - a.last_update_time : Nat) : Int)),
        last_update_time := now }) := by
  refine ⟨update_underflow, as_i64_eq_ofNat, ?_, ?_⟩
  · intro n h1 h2
    have hmod : n % 2 ^ 64 = n := Nat.mod_eq_of_lt h2
    have h3 : ¬ (n < 2 ^ 63) := by
      norm_num [i64MaxNat] at h1
      norm_num
      omega
    unfold as_i64
    rw [hmod, if_neg h3]
    have : (n : Int) < 2 ^ 64 := by exact_mod_cast h2
    omega
  · intro a now t hp hst hnl hd hpos
    have hcast : as_i64 (now - a.last_update_time) =
        ((now - a.last_update_time : Nat) : Int) := as_i64_eq_ofNat _ hd
    have h := update_work_steady a now t hst hp hnl (by rw [hcast]; exact hpos)
    rw [hcast] at h
    exact h

/-- C10 witness: a clock step backwards panics; a small delta is cast
exactly; a delta of `2^63` wraps negative. -/
theorem C10_clock_precondition_witness :
    samplePaused.update 5 = none ∧
    as_i64 1000 = (1000 : Int) ∧
    as_i64 (2 ^ 63) < 0 :=
  ⟨C10_clock_precondition.1 samplePaused 5 (by decide),
   C10_clock_precondition.2.1 1000 (by decide),
   C10_clock_precondition.2.2.1 (2 ^ 63) (by decide) (by decide)⟩

theorem exhaust_arith (d : Int) (last now : Nat) (hd0 : 0 ≤ d)
    (h : last + d.toNat ≤ now) (hM : now - last ≤ i64MaxNat) :
    d - as_i64 (now - last) ≤ 0 ∧ last ≤ now := by
  have hc := as_i64_eq_ofNat (now - last) hM
  constructor
  · rw [hc]
    omega
  · omega

/-- C1 (amended): with `cycles_per_set = 3`, starting and then driving six
exhaustion transitions (each call at or past the current phase's remaining
time, with each call's elapsed time at most `i64::MAX` so that the delta
cast is exact) yields exactly the phase/cycle sequence `Working(c=3) →
ShortBreak(c=3) → Working(c=2) → ShortBreak(c=2) → Working(c=1) →
LongBreak(c=1) → Working(c=3)`, each phase starting at its full configured
duration. -/
theorem C1_cycle_round_trip (a : App) (n0 n1 n2 n3 n4 n5 n6 : Nat)
    (hp : a.paused = false) (hN : a.settings.work_cycles = 3)
    (hw : 0 < a.settings.work_time)
    (hs : 0 < a.settings.short_wait_time)
    (hl : 0 < a.settings.long_wait_time)
    (h1 : n0 + a.settings.work_time.toNat ≤ n1) (h1M : n1 - n0 ≤ i64MaxNat)
    (h2 : n1 + a.settings.short_wait_time.toNat ≤ n2) (h2M : n2 - n1 ≤ i64MaxNat)
    (h3 : n2 + a.settings.work_time.toNat ≤ n3) (h3M : n3 - n2 ≤ i64MaxNat)
    (h4 : n3 + a.settings.short_wait_time.toNat ≤ n4) (h4M : n4 - n3 ≤ i64MaxNat)
    (h5 : n4 + a.settings.work_time.toNat ≤ n5) (h5M : n5 - n4 ≤ i64MaxNat)
    (h6 : n5 + a.settings.long_wait_time.toNat ≤ n6) (h6M : n6 - n5 ≤ i64MaxNat) :
    ∃ b1 b2 b3 b4 b5 b6 : App,
      (a.start n0).state = .Work a.settings.work_time ∧
      (a.start n0).cycle = some 3 ∧
      (a.start n0).update n1 = some b1 ∧
      b1.state = .ShortWait a.settings.short_wait_time ∧ b1.cycle = some 3 ∧
      b1.update n2 = some b2 ∧
      b2.state = .Work a.settings.work_time ∧ b2.cycle = some 2 ∧
      b2.update n3 = some b3 ∧
      b3.state = .ShortWait a.settings.short_wait_time ∧ b3.cycle = some 2 ∧
      b3.update n4 = some b4 ∧
      b4.state = .Work a.settings.work_time ∧ b4.cycle = some 1 ∧
      b4.update n5 = some b5 ∧
      b5.state = .LongWait a.settings.long_wait_time ∧ b5.cycle = some 1 ∧
      b5.update n6 = some b6 ∧
      b6.state = .Work a.settings.work_time ∧ b6.cycle = some 3 := by
  have hc0 : (a.start n0).cycle = some 3 := by
    show some a.settings.work_cycles = some 3
    rw [hN]
  obtain ⟨g1, l1⟩ := exhaust_arith a.settings.work_time n0 n1 (le_of_lt hw) h1 h1M
  obtain ⟨g2, l2⟩ := exhaust_arith a.settings.short_wait_time n1 n2 (le_of_lt hs) h2 h2M
  obtain ⟨g3, l3⟩ := exhaust_arith a.settings.work_time n2 n3 (le_of_lt hw) h3 h3M
  obtain ⟨g4, l4⟩ := exhaust_arith a.settings.short_wait_time n3 n4 (le_of_lt hs) h4 h4M
  obtain ⟨g5, l5⟩ := exhaust_arith a.settings.work_time n4 n5 (le_of_lt hw) h5 h5M
  obtain ⟨g6, l6⟩ := exhaust_arith a.settings.long_wait_time n5 n6 (le_of_lt hl) h6 h6M
  have s1 := update_work_exhaust_short (a.start n0) n1 a.settings.work_time 3
    rfl hc0 (by decide) hp l1 g1
  have s2 := update_short_exhaust
    { a.start n0 with
      state := .ShortWait a.settings.short_wait_time
      last_update_time := n1 } n2
    a.settings.short_wait_time 3 rfl hc0 (by decide) hp l2 g2
  have s3 := update_work_exhaust_short
    { a.start n0 with
      state := .Work a.settings.work_time
      cycle := some (3 - 1)
      last_update_time := n2 } n3
    a.settings.work_time 2 rfl rfl (by decide) hp l3 g3
  have s4 := update_short_exhaust
    { a.start n0 with
      state := .ShortWait a.settings.short_wait_time
      cycle := some (3 - 1)
      last_update_time := n3 } n4
    a.settings.short_wait_time 2 rfl rfl (by decide) hp l4 g4
  have s5 := update_work_exhaust_long
    { a.start n0 with
      state := .Work a.settings.work_time
      cycle := some (2 - 1)
      last_update_time := n4 } n5
    a.settings.work_time rfl rfl hp l5 g5
  have s6 := update_long_exhaust
    { a.start n0 with
      state := .LongWait a.settings.long_wait_time
      cycle := some (2 - 1)
      last_update_time := n5 } n6
    a.settings.long_wait_time rfl hp l6 g6
  exact ⟨_, _, _, _, _, _, rfl, hc0, s1, rfl, hc0, s2, rfl, rfl, s3, rfl, rfl,
    s4, rfl, rfl, s5, rfl, rfl, s6, rfl, hc0⟩

/-- C1 witness: the round trip on a concrete session (work 2 ms, short
break 3 ms, long break 5 ms, 3 cycles) driven at the exact exhaustion
instants 2, 5, 7, 10, 12, 17. -/
theorem C1_cycle_round_trip_witness :
    ∃ b1 b2 b3 b4 b5 b6 : App,
      (sampleMenu.start 0).state = .Work sampleMenu.settings.work_time ∧
      (sampleMenu.start 0).cycle = some 3 ∧
      (sampleMenu.start 0).update 2 = some b1 ∧
      b1.state = .ShortWait sampleMenu.settings.short_wait_time ∧ b1.cycle = some 3 ∧
      b1.update 5 = some b2 ∧
      b2.state = .Work sampleMenu.settings.work_time ∧ b2.cycle = some 2 ∧
      b2.update 7 = some b3 ∧
      b3.state = .ShortWait sampleMenu.settings.short_wait_time ∧ b3.cycle = some 2 ∧
      b3.update 10 = some b4 ∧
      b4.state = .Work sampleMenu.settings.work_time ∧ b4.cycle = some 1 ∧
      b4.update 12 = some b5 ∧
      b5.state = .LongWait sampleMenu.settings.long_wait_time ∧ b5.cycle = some 1 ∧
      b5.update 17 = some b6 ∧
      b6.state = .Work sampleMenu.settings.work_time ∧ b6.cycle = some 3 :=
  C1_cycle_round_trip sampleMenu 0 2 5 7 10 12 17 rfl rfl
    (by decide) (by decide) (by decide)
    (by decide) (by decide) (by decide) (by decide) (by decide) (by decide)
    (by decide) (by decide) (by decide) (by decide) (by decide) (by decide)

/-- C1 counterexample: with 1-minute durations and `cycles_per_set = 3`,
the very first exhaustion call taken at `now = 2^63 + 60005` — which
satisfies the claim's only condition `now >= last_observed_time_ms +
remaining_ms` — does not transition to `ShortBreak(c=3)`: the delta wraps
to a negative `i64`, so the session stays in `Working` with an inflated
remaining time. -/
theorem C1_cycle_round_trip_cex :
    bigMenu.settings.work_cycles = 3 ∧
    (bigMenu.start 0).state = .Work 60000 ∧
    0 + 60000 ≤ 2 ^ 63 + 60005 ∧
    Option.map App.state ((bigMenu.start 0).update (2 ^ 63 + 60005)) =
      some (.Work (2 ^ 63 - 5)) ∧
    (PomoState.Work (2 ^ 63 - 5)) ≠ .ShortWait 60000 := by
  refine ⟨rfl, rfl, by norm_num, by decide, by decide⟩

theorem StrongInv_init (s : Settings) (now : Nat) :
    StrongInv s { state := .Menu, settings := s, cycle := none,
                  last_update_time := now, paused := false } := by
  refine ⟨rfl, ?_, ?_, ?_⟩ <;> (intro t ht; simp at ht)

theorem StrongInv_start (s : Settings) (a : App) (now : Nat)
    (h : StrongInv s a) (hw : 0 < s.work_time) (hcy : 1 ≤ s.work_cycles) :
    StrongInv s (a.start now) := by
  obtain ⟨hs, -, -, -⟩ := h
  refine ⟨hs, ?_, ?_, ?_⟩
  · intro t ht
    have ht' : a.settings.work_time = t := by
      simpa [App.start] using ht
    refine ⟨s.work_cycles, ?_, hcy, le_refl _, ?_, ?_⟩
    · show some a.settings.work_cycles = some s.work_cycles
      rw [hs]
    · rw [← ht', hs]
      exact hw
    · rw [← ht', hs]
  · intro t ht
    simp [App.start] at ht
  · intro t ht
    simp [App.start] at ht

theorem StrongInv_toggle (s : Settings) (a : App) (h : StrongInv s a) :
    StrongInv s a.toggle_pause := by
  obtain ⟨hs, hW, hS, hL⟩ := h
  exact ⟨hs, hW, hS, hL⟩

theorem StrongInv_update (s : Settings) (a a' : App) (now : Nat)
    (h : StrongInv s a)
    (hw : 0 < s.work_time) (hsb : 0 < s.short_wait_time)
    (hlb : 0 < s.long_wait_time) (hcy : 1 ≤ s.work_cycles)
    (hnl : a.last_update_time ≤ now) (hM : now - a.last_update_time ≤ i64MaxNat)
    (hu : a.update now = some a') : StrongInv s a' := by
  obtain ⟨hs, hW, hS, hL⟩ := h
  have hd : as_i64 (now - a.last_update_time) =
      ((now - a.last_update_time : Nat) : Int) := as_i64_eq_ofNat _ hM
  cases hp : a.paused with
  | true =>
    rw [update_paused_eq a now hp hnl] at hu
    injection hu with hu
    subst hu
    exact ⟨hs, hW, hS, hL⟩
  | false =>
    cases hst : a.state with
    | Menu =>
      rw [update_menu_eq a now hst hp hnl] at hu
      injection hu with hu
      subst hu
      exact ⟨hs, hW, hS, hL⟩
    | Work t =>
      obtain ⟨k, hc, hk1, hkN, ht0, htW⟩ := hW t hst
      by_cases hpos : 0 < t - as_i64 (now - a.last_update_time)
      · rw [update_work_steady a now t hst hp hnl hpos] at hu
        injection hu with hu
        subst hu
        refine ⟨hs, ?_, ?_, ?_⟩
        · intro u huu
          simp at huu
          subst huu
          exact ⟨k, hc, hk1, hkN, hpos, by rw [hd] at hpos ⊢; omega⟩
        · intro u huu
          simp at huu
        · intro u huu
          simp at huu
      · push_neg at hpos
        by_cases hk : k = 1
        · rw [hk] at hc
          rw [update_work_exhaust_long a now t hst hc hp hnl hpos] at hu
          injection hu with hu
          subst hu
          refine ⟨hs, ?_, ?_, ?_⟩
          · intro u huu
            simp at huu
          · intro u huu
            simp at huu
          · intro u huu
            simp at huu
            subst huu
            refine ⟨1, hc, le_refl _, hcy, ?_, ?_⟩
            · rw [hs]
              exact hlb
            · rw [hs]
        · rw [update_work_exhaust_short a now t k hst hc hk hp hnl hpos] at hu
          injection hu with hu
          subst hu
          refine ⟨hs, ?_, ?_, ?_⟩
          · intro u huu
            simp at huu
          · intro u huu
            simp at huu
            subst huu
            refine ⟨k, hc, by omega, hkN, ?_, ?_⟩
            · rw [hs]
              exact hsb
            · rw [hs]
          · intro u huu
            simp at huu
    | ShortWait t =>
      obtain ⟨k, hc, hk2, hkN, ht0, htS⟩ := hS t hst
      by_cases hpos : 0 < t - as_i64 (now - a.last_update_time)
      · rw [update_short_steady a now t hst hp hnl hpos] at hu
        injection hu with hu
        subst hu
        refine ⟨hs, ?_, ?_, ?_⟩
        · intro u huu
          simp at huu
        · intro u huu
          simp at huu
          subst huu
          exact ⟨k, hc, hk2, hkN, hpos, by rw [hd] at hpos ⊢; omega⟩
        · intro u huu
          simp at huu
      · push_neg at hpos
        rw [update_short_exhaust a now t k hst hc (by omega) hp hnl hpos] at hu
        injection hu with hu
        subst hu
        refine ⟨hs, ?_, ?_, ?_⟩
        · intro u huu
          simp at huu
          subst huu
          exact ⟨k - 1, rfl, by omega, by omega, by rw [hs]; exact hw, by rw [hs]⟩
        · intro u huu
          simp at huu
        · intro u huu
          simp at huu
    | LongWait t =>
      obtain ⟨k, hc, hk1, hkN, ht0, htL⟩ := hL t hst
      by_cases hpos : 0 < t - as_i64 (now - a.last_update_time)
      · rw [update_long_steady a now t hst hp hnl hpos] at hu
        injection hu with hu
        subst hu
        refine ⟨hs, ?_, ?_, ?_⟩
        · intro u huu
          simp at huu
        · intro u huu
          simp at huu
        · intro u huu
          simp at huu
          subst huu
          exact ⟨k, hc, hk1, hkN, hpos, by rw [hd] at hpos ⊢; omega⟩
      · push_neg at hpos
        rw [update_long_exhaust a now t hst hp hnl hpos] at hu
        injection hu with hu
        subst hu
        refine ⟨hs, ?_, ?_, ?_⟩
        · intro u huu
          simp at huu
          subst huu
          refine ⟨s.work_cycles, ?_, hcy, le_refl _, ?_, ?_⟩
          · show some a.settings.work_cycles = some s.work_cycles
            rw [hs]
          · rw [hs]
            exact hw
          · rw [hs]
        · intro u huu
          simp at huu
        · intro u huu
          simp at huu

theorem reachable_strongInv (s : Settings) (a : App)
    (hw : 0 < s.work_time) (hsb : 0 < s.short_wait_time)
    (hlb : 0 < s.long_wait_time) (hcy : 1 ≤ s.work_cycles)
    (hr : Reachable s a) : StrongInv s a := by
  induction hr with
  | init now => exact StrongInv_init s now
  | start b now _ ih => exact StrongInv_start s b now ih hw hcy
  | toggle b _ ih => exact StrongInv_toggle s b ih
  | update b b' now _ hnl hM hu ih =>
    exact StrongInv_update s b b' now ih hw hsb hlb hcy hnl hM hu

theorem strongInv_update_isSome (s : Settings) (a : App) (h : StrongInv s a)
    (now : Nat) (hnl : a.last_update_time ≤ now)
    (hM : now - a.last_update_time ≤ i64MaxNat) :
    (a.update now).isSome := by
  obtain ⟨hs, hW, hS, hL⟩ := h
  cases hp : a.paused with
  | true =>
    rw [update_paused_eq a now hp hnl]
    rfl
  | false =>
    cases hst : a.state with
    | Menu =>
      rw [update_menu_eq a now hst hp hnl]
      rfl
    | Work t =>
      obtain ⟨k, hc, hk1, hkN, ht0, htW⟩ := hW t hst
      by_cases hpos : 0 < t - as_i64 (now - a.last_update_time)
      · rw [update_work_steady a now t hst hp hnl hpos]
        rfl
      · push_neg at hpos
        by_cases hk : k = 1
        · rw [hk] at hc
          rw [update_work_exhaust_long a now t hst hc hp hnl hpos]
          rfl
        · rw [update_work_exhaust_short a now t k hst hc hk hp hnl hpos]
          rfl
    | ShortWait t =>
      obtain ⟨k, hc, hk2, hkN, ht0, htS⟩ := hS t hst
      by_cases hpos : 0 < t - as_i64 (now - a.last_update_time)
      · rw [update_short_steady a now t hst hp hnl hpos]
        rfl
      · push_neg at hpos
        rw [update_short_exhaust a now t k hst hc (by omega) hp hnl hpos]
        rfl
    | LongWait t =>
      by_cases hpos : 0 < t - as_i64 (now - a.last_update_time)
      · rw [update_long_steady a now t hst hp hnl hpos]
        rfl
      · push_neg at hpos
        rw [update_long_exhaust a now t hst hp hnl hpos]
        rfl

theorem strongInv_state_text_isSome (s : Settings) (a : App)
    (h : StrongInv s a) : (a.get_state_text).isSome := by
  obtain ⟨hs, hW, hS, hL⟩ := h
  unfold App.get_state_text
  cases hp : a.paused with
  | true => simp
  | false =>
    cases hst : a.state with
    | Menu =>
      cases a.cycle <;> simp
    | Work t =>
      obtain ⟨k, hc, hk1, hkN, ht0, htW⟩ := hW t hst
      rw [hc, hs]
      simp [hkN]
    | ShortWait t =>
      obtain ⟨k, hc, hk2, hkN, ht0, htS⟩ := hS t hst
      rw [hc, hs]
      simp [hkN]
    | LongWait t =>
      cases a.cycle <;> simp

/-- C8 (amended): every state reachable from the initial `Menu` state by
`start`, pause toggles, and `advance` calls with nondecreasing clock
readings whose per-call elapsed time is at most `i64::MAX` satisfies, when
its phase is not `Menu`: the cycle counter is `some k` with
`1 <= k <= cycles_per_set` and the phase's remaining time is positive and
at most that phase's configured duration. Consequently `update` never hits
its `unreachable!()` arms (it returns `some` for any valid next reading)
and `get_state_text` never panics on `cycle.unwrap()`. -/
theorem C8_reachable_state_invariant (s : Settings) (a : App)
    (hw : 0 < s.work_time) (hsb : 0 < s.short_wait_time)
    (hlb : 0 < s.long_wait_time) (hcy : 1 ≤ s.work_cycles)
    (hr : Reachable s a) :
    (a.state ≠ .Menu → ∃ k t, a.cycle = some k ∧ 1 ≤ k ∧ k ≤ s.work_cycles ∧
      a.state.get_inner = some t ∧ 0 < t ∧ t ≤ s.phase_total a.state) ∧
    (∀ now, a.last_update_time ≤ now → now - a.last_update_time ≤ i64MaxNat →
      (a.update now).isSome) ∧
    (a.get_state_text).isSome := by
  have h := reachable_strongInv s a hw hsb hlb hcy hr
  refine ⟨?_, fun now h1 h2 => strongInv_update_isSome s a h now h1 h2,
    strongInv_state_text_isSome s a h⟩
  intro hne
  obtain ⟨hs, hW, hS, hL⟩ := h
  cases hst : a.state with
  | Menu => exact absurd hst hne
  | Work t =>
    obtain ⟨k, hc, hk1, hkN, ht0, htW⟩ := hW t hst
    exact ⟨k, t, hc, hk1, hkN, rfl, ht0, htW⟩
  | ShortWait t =>
    obtain ⟨k, hc, hk2, hkN, ht0, htS⟩ := hS t hst
    exact ⟨k, t, hc, by omega, hkN, rfl, ht0, htS⟩
  | LongWait t =>
    obtain ⟨k, hc, hk1, hkN, ht0, htL⟩ := hL t hst
    exact ⟨k, t, hc, hk1, hkN, rfl, ht0, htL⟩

/-- C8 witness: the state reached by `start` at clock 5 from the initial
menu satisfies the invariant, its next advance succeeds, and its display
text is defined. -/
theorem C8_reachable_state_invariant_witness :
    (∃ k t, (sampleMenu.start 5).cycle = some k ∧ 1 ≤ k ∧
      k ≤ sampleSettings.work_cycles ∧
      (sampleMenu.start 5).state.get_inner = some t ∧ 0 < t ∧
      t ≤ sampleSettings.phase_total (sampleMenu.start 5).state) ∧
    ((sampleMenu.start 5).update 6).isSome ∧
    ((sampleMenu.start 5).get_state_text).isSome := by
  have h := C8_reachable_state_invariant sampleSettings (sampleMenu.start 5)
    (by decide) (by decide) (by decide) (by decide)
    (Reachable.start _ 5 (Reachable.init 0))
  exact ⟨h.1 (by decide), h.2.1 6 (by decide) (by decide), h.2.2⟩

/-- C8 counterexample: under the claim's own hypotheses (nondecreasing
clock readings, no bound on the jump), the state reached by `start` at
clock 0 and a single `advance` at clock `2^63 + 60006` has phase `Working`
with `time_left = 2^63 - 6`, far above the configured
`work_duration_ms = 60000`, violating the claimed
`time_left <= configured duration` invariant. -/
theorem C8_reachable_state_invariant_cex :
    ReachableAny bigSettings
      { state := .Work (2 ^ 63 - 6), settings := bigSettings, cycle := some 3,
        last_update_time := 2 ^ 63 + 60006, paused := false } ∧
    ¬ ((2 ^ 63 - 6 : Int) ≤
      bigSettings.phase_total (.Work (2 ^ 63 - 6))) := by
  constructor
  · have h0 : ReachableAny bigSettings bigMenu := ReachableAny.init 0
    have h1 : ReachableAny bigSettings (bigMenu.start 0) :=
      ReachableAny.start _ 0 h0
    exact ReachableAny.update _ _ (2 ^ 63 + 60006) h1 (by decide) (by decide)
  · decide

end Pomotui
